import Mathlib

/-!
Verification of the LogSeq directory selector (`src/test.py`).

The development shallowly embeds the program's core: the structural
validator (`LogSeqValidator.validate_logseq_structure`), the directory
listing table (`FileTable.load_directory`, `FileTable.go_back`,
`FileTable._format_size`) and the application-level navigation state
machine (`LogSeqDirectorySelector`).

Filesystem accesses are modelled by an explicit finite map from absolute
paths to node information; exceptions raised by `stat`/`iterdir`/`glob`
are modelled by per-node flags.  Python strings are Lean `String`s;
operations the program performs on them (`lower`, `replace`,
`startswith`) are re-implemented over `List Char` so that everything is
kernel-computable.
-/

/-- An absolute path, as its list of components (`[]` is the filesystem
root, whose parent is itself, as for `pathlib.Path("/")`). -/
abbrev FPath := List String

/-- `pathlib`'s `FPath.parent`: drop the last component; the root is its
own parent. -/
def parentOf (p : FPath) : FPath := p.dropLast

/-- What the filesystem reports about one path.  `statOk = false` means
`Path.stat()` raises `PermissionError`/`OSError` for the node;
`listable = false` means enumerating the node (`iterdir`, `glob`) raises
`PermissionError`. -/
inductive NodeInfo where
  | missing : NodeInfo
  | file (size : Nat) (statOk : Bool) : NodeInfo
  | dir (children : List String) (listable : Bool) (statOk : Bool) : NodeInfo
deriving DecidableEq

/-- A filesystem: a finite association of paths to node information.
Paths not in the list do not exist. -/
abbrev FS := List (FPath × NodeInfo)

/-- Look a path up in the filesystem. -/
def lookupFS (fs : FS) (p : FPath) : NodeInfo := (fs.lookup p).getD .missing

/-- `Path.exists()`. -/
def pathExists (fs : FS) (p : FPath) : Bool :=
  match lookupFS fs p with
  | .missing => false
  | _ => true

/-- `Path.is_dir()`. -/
def isDirFS (fs : FS) (p : FPath) : Bool :=
  match lookupFS fs p with
  | .dir _ _ _ => true
  | _ => false

/-- Whether enumerating the directory succeeds (`iterdir`/`glob` do not
raise). -/
def dirListable (fs : FS) (p : FPath) : Bool :=
  match lookupFS fs p with
  | .dir _ l _ => l
  | _ => false

/-- The names returned by `iterdir`, in directory order. -/
def childrenOf (fs : FS) (p : FPath) : List String :=
  match lookupFS fs p with
  | .dir ch _ _ => ch
  | _ => []

/-- Whether `stat` succeeds on the node. -/
def statOkOf (fs : FS) (p : FPath) : Bool :=
  match lookupFS fs p with
  | .file _ ok => ok
  | .dir _ _ ok => ok
  | .missing => false

/-! ### Character-list utilities

Python string operations used by the program, re-implemented over
`List Char`. -/

/-- Lexicographic comparison of character lists by code point, the order
Python uses to compare `str` values.  `lexLe a b` is `a <= b`. -/
def lexLe : List Char → List Char → Bool
  | [], _ => true
  | _ :: _, [] => false
  | a :: as, b :: bs =>
    if a.toNat < b.toNat then true
    else if b.toNat < a.toNat then false
    else lexLe as bs

/-- The fuelled scan behind `replList`: each step consumes one unit of
fuel and at least one character, so fuel equal to the list length always
suffices; structural recursion on the fuel keeps everything
kernel-computable. -/
def replListAux (pat rep : List Char) : Nat → List Char → List Char
  | _, [] => []
  | 0, l => l
  | fuel + 1, c :: rest =>
    if pat ≠ [] ∧ pat.isPrefixOf (c :: rest) then
      rep ++ replListAux pat rep fuel (rest.drop (pat.length - 1))
    else
      c :: replListAux pat rep fuel rest

/-- Python's `str.replace(pat, rep)` on character lists: replace each
leftmost, non-overlapping occurrence of `pat` (assumed nonempty in all
uses) by `rep`. -/
def replList (pat rep l : List Char) : List Char := replListAux pat rep l.length l

/-- Python's `str.replace` on strings. -/
def pyReplace (s pat rep : String) : String := String.mk (replList pat.data rep.data s.data)

/-- Whether `pat` occurs as a contiguous sublist. -/
def hasSub (pat : List Char) : List Char → Bool
  | [] => pat.isEmpty
  | c :: rest => pat.isPrefixOf (c :: rest) || hasSub pat rest

/-- Python's `str.lower()` restricted to ASCII case folding, as the sort
key of the listing uses it. -/
def lowerKey (s : String) : List Char := s.data.map Char.toLower

/-! ### SizeFormatter (`FileTable._format_size`)

The Python code repeatedly executes `size /= 1024.0` on an IEEE-754
double and prints `f"{size:.0f}"`.  The first division converts the
integer byte count to the nearest double (ties to even); every division
by `1024 = 2 ^ 10` then only shifts the exponent and is exact, so after
`k` divisions the double holds exactly the rational
`floatOfNat size / 1024 ^ k`.  We therefore apply the conversion
rounding once and carry the value as an exact numerator/denominator
pair of naturals.  (Counts at or above `2 ^ 1024`, whose conversion
raises `OverflowError`, are beyond any real `st_size` and not
modelled.) -/

/-- Fuelled floor of the base-2 logarithm (fuel at least the number of
halvings, so `fuel = n` always suffices); structural recursion keeps it
kernel-computable. -/
def log2Aux : Nat → Nat → Nat
  | 0, _ => 0
  | fuel + 1, n => if 2 ≤ n then log2Aux fuel (n / 2) + 1 else 0

/-- Floor of the base-2 logarithm of a natural number. -/
def floorLog2 (n : Nat) : Nat := log2Aux n n

/-- The exact value of the IEEE-754 double nearest to `n` (CPython's
int-to-float conversion): naturals below `2 ^ 53` are exact; larger
ones are rounded to the nearest multiple of the unit in the last place
of their binade, ties to the even significand. -/
def floatOfNat (n : Nat) : Nat :=
  if n < 2 ^ 53 then n
  else
    let e := floorLog2 n
    let ulp := 2 ^ (e - 52)
    let q := n / ulp
    let r := n % ulp
    let q2 :=
      if 2 * r < ulp then q
      else if ulp < 2 * r then q + 1
      else if q % 2 = 0 then q else q + 1
    q2 * ulp

/-- `f"{num / den:.0f}"` for a nonnegative exact value: round to the
nearest integer, ties to even (IEEE-754 default used by Python's float
formatting), and print it. -/
def fmtDot0 (num den : Nat) : String :=
  let f := num / den
  let r := num % den
  let n :=
    if 2 * r < den then f
    else if den < 2 * r then f + 1
    else if f % 2 = 0 then f else f + 1
  toString n

/-- The loop of `_format_size`: `den` is `1024 ^ (divisions so far)`. -/
def formatSizeGo (num den : Nat) : List String → String
  | [] => fmtDot0 num den ++ "TB"
  | u :: rest =>
    if num < 1024 * den then fmtDot0 num den ++ u
    else formatSizeGo num (den * 1024) rest

/-- `FileTable._format_size` (source name `_format_size`): the byte
count is converted to a double by the first division and the loop then
divides exactly. -/
def format_size (size : Nat) : String :=
  formatSizeGo (floatOfNat size) 1 ["B", "KB", "MB", "GB"]

/-! ### WorkspaceValidator (`LogSeqValidator.validate_logseq_structure`) -/

/-- The three required LogSeq subdirectory names, in check order. -/
def requiredItems : List String := ["logseq", "pages", "journals"]

/-- `(directory / item).exists() and (directory / item).is_dir()`. -/
def itemPresent (fs : FS) (d : FPath) (item : String) : Bool :=
  pathExists fs (d ++ [item]) && isDirFS fs (d ++ [item])

/-- The summary line recorded for one required item. -/
def presenceLine (fs : FS) (d : FPath) (item : String) : String :=
  if itemPresent fs d item then "✅ " ++ item ++ "/" else "❌ " ++ item ++ "/"

/-- `len(list(p.glob("*.md")))`.  `pathlib`'s glob selector wraps its
`scandir` in `except PermissionError: return`, so a permission-denied
directory does not raise: the glob is silently empty and the count is
`0`.  Only other `OSError`s escape `glob` — `scandir` on a non-directory
node raises `NotADirectoryError` (and on a vanished one
`FileNotFoundError`), modelled as `none` and caught by the validator's
bare `except`. -/
def globMdCount (fs : FS) (p : FPath) : Option Nat :=
  match lookupFS fs p with
  | .dir ch true _ => some ((ch.filter (fun n => n.endsWith ".md")).length)
  | .dir _ false _ => some 0
  | _ => none

/-- The `journals` half of the informational count block. -/
def journalCountLines (fs : FS) (d : FPath) : List String :=
  if pathExists fs (d ++ ["journals"]) then
    match globMdCount fs (d ++ ["journals"]) with
    | none => []
    | some j => ["📅 " ++ toString j ++ " journals"]
  else []

/-- The informational count block: the `try:` body appends a line per
successful count and the bare `except: pass` discards everything after
the first raising `glob`. -/
def noteCountLines (fs : FS) (d : FPath) : List String :=
  if pathExists fs (d ++ ["pages"]) then
    match globMdCount fs (d ++ ["pages"]) with
    | none => []
    | some c => ("📄 " ++ toString c ++ " pages") :: journalCountLines fs d
  else journalCountLines fs d

/-- `LogSeqValidator.validate_logseq_structure`, returning
`(is_valid, summary)`. -/
def validate_logseq_structure (fs : FS) (directory : FPath) : Bool × List String :=
  if pathExists fs directory && isDirFS fs directory then
    (requiredItems.all (itemPresent fs directory),
     requiredItems.map (presenceLine fs directory) ++ noteCountLines fs directory)
  else
    (false, ["📁 Path doesn\x27t exist or isn\x27t a directory"])

/-- One row of the file table: display name, type tag
(`NAV`/`DIR`/`FILE`/`ERROR`) and size column. -/
structure Row where
  name : String
  ty : String
  size : String
deriving DecidableEq

/-- The synthetic back-navigation row. -/
def backRow : Row := { name := "🔙 Back", ty := "NAV", size := "" }

/-- The synthetic up-navigation row. -/
def upRow : Row := { name := "⬆️ Up", ty := "NAV", size := "" }

/-- The single row shown when the whole directory cannot be enumerated. -/
def errorRow : Row := { name := "🔒 Permission denied", ty := "ERROR", size := "" }

/-- The hidden-entry filter: skip names starting with `.` except the
allow-listed `.logseq`. -/
def skipHidden (n : String) : Bool :=
  (match n.data with
   | c :: _ => c = '.'
   | [] => false) && !(n = ".logseq")

/-- The size column of a directory row when `stat` succeeded: the count
of immediate children, or `"folder"` when `iterdir` raises. -/
def dirSizeStr (fs : FS) (p : FPath) : String :=
  match lookupFS fs p with
  | .dir ch true _ => toString ch.length ++ " items"
  | _ => "folder"

/-- The row built for one child name, or `none` when the child is
skipped as hidden.  A failing `stat` (including a vanished entry, whose
`is_dir()` is `False`) degrades the size column to `"locked"`. -/
def entryRow (fs : FS) (d : FPath) (n : String) : Option Row :=
  if skipHidden n then none
  else
    match lookupFS fs (d ++ [n]) with
    | .dir _ _ true => some { name := "📁 " ++ n, ty := "DIR", size := dirSizeStr fs (d ++ [n]) }
    | .dir _ _ false => some { name := "📁 " ++ n, ty := "DIR", size := "locked" }
    | .file sz true => some { name := "📄 " ++ n, ty := "FILE", size := format_size sz }
    | .file _ false => some { name := "📄 " ++ n, ty := "FILE", size := "locked" }
    | .missing => some { name := "📄 " ++ n, ty := "FILE", size := "locked" }

/-- All rows built from the children, in directory order. -/
def listEntries (fs : FS) (d : FPath) : List Row :=
  (childrenOf fs d).filterMap (entryRow fs d)

/-- The rows accumulated in the `directories` list. -/
def dirEntries (fs : FS) (d : FPath) : List Row :=
  (listEntries fs d).filter (fun r => r.ty == "DIR")

/-- The rows accumulated in the `files` list. -/
def fileEntries (fs : FS) (d : FPath) : List Row :=
  (listEntries fs d).filter (fun r => r.ty == "FILE")

/-- The comparison `x[0].lower() <= y[0].lower()` used as sort key. -/
def rowLeB (a b : Row) : Bool := lexLe (lowerKey a.name) (lowerKey b.name)

/-- Insert a row in front of the first row not below it; `sortRows` is
the stable sort `list.sort(key=lambda x: x[0].lower())`. -/
def insertRow (r : Row) : List Row → List Row
  | [] => [r]
  | x :: xs => if rowLeB r x then r :: x :: xs else x :: insertRow r xs

/-- Stable insertion sort of rows by lower-cased display name. -/
def sortRows (l : List Row) : List Row := l.foldr insertRow []

/-- The synthetic navigation rows: back when history is nonempty, up
when the directory has a distinct parent. -/
def navRows (hist : List FPath) (d : FPath) : List Row :=
  (if hist.isEmpty then [] else [backRow]) ++ (if parentOf d = d then [] else [upRow])

/-- The rows shown after `load_directory` ran on `d` with the (already
updated) history `hist`: empty when the path is not an existing
directory (the table is only cleared), the single error row when the
top-level enumeration raises `PermissionError` (the navigation rows
prepared in `entries` are discarded because `add_row` is never
reached), and otherwise navigation rows, then sorted directory rows,
then sorted file rows. -/
def loadRows (fs : FS) (hist : List FPath) (d : FPath) : List Row :=
  if pathExists fs d && isDirFS fs d then
    if dirListable fs d then
      navRows hist d ++ sortRows (dirEntries fs d) ++ sortRows (fileEntries fs d)
    else [errorRow]
  else []

/-! ### BrowserState (`FileTable` state and `LogSeqDirectorySelector`) -/

/-- The mutable state of the `FileTable` widget: `current_directory`,
`directory_history` (append at the end, pop from the end) and the
displayed rows. -/
structure TableState where
  current : Option FPath
  history : List FPath
  rows : List Row
deriving DecidableEq

/-- `FileTable.load_directory(directory, add_to_history)`: push the
previously current directory when it exists, differs from the target and
recording is requested; then make the target current and rebuild the
rows (the back row tests the history after the push). -/
def load_directory (fs : FS) (ts : TableState) (d : FPath) (addToHistory : Bool) : TableState :=
  let hist :=
    match ts.current with
    | some c => if addToHistory ∧ c ≠ d then ts.history ++ [c] else ts.history
    | none => ts.history
  { current := some d, history := hist, rows := loadRows fs hist d }

/-- `FileTable.go_back`: pop and return the last history entry, if any. -/
def table_go_back (ts : TableState) : Option FPath × TableState :=
  match ts.history.getLast? with
  | none => (none, ts)
  | some p => (some p, { ts with history := ts.history.dropLast })

/-- The application state: the table, the reactive `current_directory`,
the at-most-once `selected_directory`, and the `LogSeqStatus` widget's
cached `current_path`/`is_valid`. -/
structure AppState where
  table : TableState
  currentDirectory : FPath
  selectedDirectory : Option FPath
  statusPath : Option FPath
  statusValid : Bool
deriving DecidableEq

/-- `LogSeqStatus.check_logseq_structure(path)` as invoked through
`LogSeqDirectorySelector.check_logseq_structure`: cache the path and the
freshly computed verdict in the status widget. -/
def check_logseq_structure (fs : FS) (s : AppState) (p : FPath) : AppState :=
  { s with statusPath := some p, statusValid := (validate_logseq_structure fs p).fst }

/-- `LogSeqDirectorySelector.refresh_all`: reload the table from
`current_directory` (with history recording on) and re-validate
`current_directory`. -/
def refresh_all (fs : FS) (s : AppState) : AppState :=
  let s' := { s with table := load_directory fs s.table s.currentDirectory true }
  check_logseq_structure fs s' s'.currentDirectory

/-- A forward navigation: assign the reactive `current_directory` and
run `refresh_all`, as the `DIR`/`Up` handlers and the path input do. -/
def navigate (fs : FS) (s : AppState) (p : FPath) : AppState :=
  refresh_all fs { s with currentDirectory := p }

/-- `LogSeqDirectorySelector.action_go_back`: pop the table history; on
`None` only notify; otherwise make the popped path current and
`refresh_all` (which records the directory being left). -/
def action_go_back (fs : FS) (s : AppState) : AppState :=
  match table_go_back s.table with
  | (none, _) => s
  | (some prev, ts) => navigate fs { s with table := ts } prev

/-- The display-name prefix of directory rows. -/
def folderMark : String := "📁 "

/-- `filename.replace("📁 ", "")`, the name recovery of the handlers. -/
def stripFolderMark (s : String) : String := pyReplace s folderMark ""

/-- `LogSeqDirectorySelector.action_open_selected` dispatching on the
cursor row `r` (no-op without a current directory): back row, up row,
directory row (navigate into the recovered name), otherwise nothing. -/
def action_open_selected (fs : FS) (s : AppState) (r : Row) : AppState :=
  match s.table.current with
  | none => s
  | some d =>
    if r.name = "🔙 Back" then action_go_back fs s
    else if r.name = "⬆️ Up" then navigate fs s (parentOf d)
    else if r.ty = "DIR" then navigate fs s (d ++ [stripFolderMark r.name])
    else s

/-- `LogSeqDirectorySelector.on_file_table_row_selected`: like
`action_open_selected` for the navigation rows, but a directory row only
runs the validator on the subdirectory (no navigation, the current
directory stays). -/
def on_file_table_row_selected (fs : FS) (s : AppState) (r : Row) : AppState :=
  match s.table.current with
  | none => s
  | some d =>
    if r.name = "🔙 Back" then action_go_back fs s
    else if r.name = "⬆️ Up" then navigate fs s (parentOf d)
    else if r.ty = "DIR" then check_logseq_structure fs s (d ++ [stripFolderMark r.name])
    else s

/-- `LogSeqDirectorySelector.action_select_current`: succeed (set
`selected_directory := current_directory`) iff the cached
`LogSeqStatus.is_valid` is set; otherwise only notify. -/
def action_select_current (s : AppState) : AppState :=
  if s.statusValid then { s with selectedDirectory := some s.currentDirectory } else s

/-- `LogSeqDirectorySelector.on_input_submitted`: navigate to an
existing directory, otherwise only notify. -/
def on_input_submitted (fs : FS) (s : AppState) (p : FPath) : AppState :=
  if pathExists fs p && isDirFS fs p then navigate fs s p else s

/-- The abstract input events of the selector (quit and focus change no
core state and are omitted). -/
inductive Ev where
  | openRow (r : Row) : Ev
  | rowSelected (r : Row) : Ev
  | goBack : Ev
  | refresh : Ev
  | submitPath (p : FPath) : Ev
  | selectCurrent : Ev

/-- One input event handled by the selector. -/
def step (fs : FS) (e : Ev) (s : AppState) : AppState :=
  match e with
  | .openRow r => action_open_selected fs s r
  | .rowSelected r => on_file_table_row_selected fs s r
  | .goBack => action_go_back fs s
  | .refresh => refresh_all fs s
  | .submitPath p => on_input_submitted fs s p
  | .selectCurrent => action_select_current s

/-- A whole event sequence. -/
def steps (fs : FS) (es : List Ev) (s : AppState) : AppState :=
  es.foldl (fun st e => step fs e st) s

/-- The state after `on_mount` when the process starts in directory `c`:
empty table and history, unset selection, `is_valid` initialised to
`False`, then one `refresh_all`. -/
def initApp (fs : FS) (c : FPath) : AppState :=
  refresh_all fs
    { table := { current := none, history := [], rows := [] },
      currentDirectory := c, selectedDirectory := none,
      statusPath := none, statusValid := false }

/-! ### Ordering lemmas for the listing sort -/

theorem lexLe_total (a b : List Char) : lexLe a b = true ∨ lexLe b a = true := by
  induction a generalizing b with
  | nil => left; rfl
  | cons x xs ih =>
    cases b with
    | nil => right; rfl
    | cons y ys =>
      simp only [lexLe]
      rcases Nat.lt_trichotomy x.toNat y.toNat with h | h | h
      · left; simp [h]
      · rcases ih ys with h2 | h2
        · left; simp [h, h2]
        · right; simp [h, h2]
      · right; simp [h, Nat.lt_asymm h]

theorem lexLe_trans {a b c : List Char} (h1 : lexLe a b = true) (h2 : lexLe b c = true) :
    lexLe a c = true := by
  induction a generalizing b c with
  | nil => rfl
  | cons x xs ih =>
    cases b with
    | nil => simp [lexLe] at h1
    | cons y ys =>
      cases c with
      | nil => simp [lexLe] at h2
      | cons z zs =>
        rcases Nat.lt_trichotomy x.toNat y.toNat with hxy | hxy | hxy
        · rcases Nat.lt_trichotomy y.toNat z.toNat with hyz | hyz | hyz
          · simp [lexLe, show x.toNat < z.toNat by omega]
          · simp [lexLe, show x.toNat < z.toNat by omega]
          · simp [lexLe, show ¬ y.toNat < z.toNat by omega, hyz] at h2
        · simp only [lexLe, show ¬ x.toNat < y.toNat by omega,
            show ¬ y.toNat < x.toNat by omega, if_false] at h1
          rcases Nat.lt_trichotomy y.toNat z.toNat with hyz | hyz | hyz
          · simp [lexLe, show x.toNat < z.toNat by omega]
          · simp only [lexLe, show ¬ y.toNat < z.toNat by omega,
              show ¬ z.toNat < y.toNat by omega, if_false] at h2
            simp only [lexLe, show ¬ x.toNat < z.toNat by omega,
              show ¬ z.toNat < x.toNat by omega, if_false]
            exact ih h1 h2
          · simp [lexLe, show ¬ y.toNat < z.toNat by omega, hyz] at h2
        · simp [lexLe, show ¬ x.toNat < y.toNat by omega, hxy] at h1

theorem rowLeB_total (a b : Row) (h : rowLeB a b = false) : rowLeB b a = true := by
  rcases lexLe_total (lowerKey a.name) (lowerKey b.name) with h2 | h2
  · exact absurd h2 (by simp [rowLeB] at h ⊢; simp [h])
  · exact h2

theorem rowLeB_trans {a b c : Row} (h1 : rowLeB a b = true) (h2 : rowLeB b c = true) :
    rowLeB a c = true := lexLe_trans h1 h2

theorem mem_insertRow {x r : Row} {l : List Row} :
    x ∈ insertRow r l ↔ x = r ∨ x ∈ l := by
  induction l with
  | nil => simp [insertRow]
  | cons y ys ih =>
    simp only [insertRow]
    split
    · simp [List.mem_cons]
    · simp only [List.mem_cons, ih]
      tauto

theorem pairwise_insertRow {r : Row} {l : List Row}
    (h : l.Pairwise (fun a b => rowLeB a b = true)) :
    (insertRow r l).Pairwise (fun a b => rowLeB a b = true) := by
  induction l with
  | nil => simp [insertRow]
  | cons x xs ih =>
    simp only [insertRow]
    split
    · rename_i hle
      refine List.Pairwise.cons ?_ h
      intro y hy
      rcases List.mem_cons.mp hy with rfl | hy
      · exact hle
      · exact rowLeB_trans hle (List.rel_of_pairwise_cons h hy)
    · rename_i hnle
      refine List.Pairwise.cons ?_ (ih (List.Pairwise.of_cons h))
      intro y hy
      rcases mem_insertRow.mp hy with rfl | hy
      · exact rowLeB_total _ _ (Bool.eq_false_iff.mpr hnle)
      · exact List.rel_of_pairwise_cons h hy

theorem pairwise_sortRows (l : List Row) :
    (sortRows l).Pairwise (fun a b => rowLeB a b = true) := by
  induction l with
  | nil => simp [sortRows]
  | cons x xs ih => exact pairwise_insertRow ih

theorem mem_sortRows {x : Row} {l : List Row} (h : x ∈ sortRows l) : x ∈ l := by
  induction l with
  | nil => exact h
  | cons y ys ih =>
    rcases mem_insertRow.mp h with rfl | h2
    · exact List.mem_cons_self _ _
    · exact List.mem_cons_of_mem _ (ih h2)

theorem dirEntries_ty {fs : FS} {d : FPath} {r : Row} (h : r ∈ dirEntries fs d) :
    r.ty = "DIR" := by
  have := (List.mem_filter.mp h).2
  simpa using this

theorem fileEntries_ty {fs : FS} {d : FPath} {r : Row} (h : r ∈ fileEntries fs d) :
    r.ty = "FILE" := by
  have := (List.mem_filter.mp h).2
  simpa using this

/-- The rank of a row in the listing invariant: navigation rows before
directory rows before file rows. -/
def rowRank (r : Row) : Nat :=
  if r.ty = "NAV" then 0 else if r.ty = "DIR" then 1 else if r.ty = "FILE" then 2 else 3

/-- The ordering the listing invariant requires between two rows `a`
before `b`: strictly earlier rank, or equal rank with (for real entries)
`a`'s lower-cased display name at most `b`'s. -/
def RowOrd (a b : Row) : Prop :=
  rowRank a < rowRank b ∨ (rowRank a = rowRank b ∧ (rowRank a = 0 ∨ rowLeB a b = true))

theorem navRows_rank {hist : List FPath} {d : FPath} {x : Row}
    (h : x ∈ navRows hist d) : rowRank x = 0 := by
  unfold navRows at h
  rcases List.mem_append.mp h with h2 | h2 <;> split at h2 <;>
    simp_all [backRow, upRow, rowRank]

theorem rank_of_dir {r : Row} (h : r.ty = "DIR") : rowRank r = 1 := by
  simp [rowRank, h]

theorem rank_of_file {r : Row} (h : r.ty = "FILE") : rowRank r = 2 := by
  simp [rowRank, h]

/-- Claim C5: every Listing produced by listing a directory satisfies
the ordering invariant: synthetic navigation rows (if present) precede
all real entries, all Directory entries precede all File entries, and
within each of the two kinds entries are sorted case-insensitively
ascending by display name. -/
theorem c5_listing_ordered (fs : FS) (hist : List FPath) (d : FPath) :
    (loadRows fs hist d).Pairwise RowOrd := by
  unfold loadRows
  split
  · split
    · refine (List.pairwise_append).mpr
        ⟨(List.pairwise_append).mpr ⟨?_, ?_, ?_⟩, ?_, ?_⟩
      · refine List.pairwise_of_forall_mem_list ?_
        intro a ha b hb
        exact Or.inr ⟨by rw [navRows_rank ha, navRows_rank hb], Or.inl (navRows_rank ha)⟩
      · refine (pairwise_sortRows (dirEntries fs d)).imp_of_mem ?_
        intro a b ha hb hle
        have ra := rank_of_dir (dirEntries_ty (mem_sortRows ha))
        have rb := rank_of_dir (dirEntries_ty (mem_sortRows hb))
        exact Or.inr ⟨by rw [ra, rb], Or.inr hle⟩
      · intro a ha b hb
        have ra := navRows_rank ha
        have rb := rank_of_dir (dirEntries_ty (mem_sortRows hb))
        exact Or.inl (by omega)
      · refine (pairwise_sortRows (fileEntries fs d)).imp_of_mem ?_
        intro a b ha hb hle
        have ra := rank_of_file (fileEntries_ty (mem_sortRows ha))
        have rb := rank_of_file (fileEntries_ty (mem_sortRows hb))
        exact Or.inr ⟨by rw [ra, rb], Or.inr hle⟩
      · intro a ha b hb
        have rb := rank_of_file (fileEntries_ty (mem_sortRows hb))
        rcases List.mem_append.mp ha with ha2 | ha2
        · have ra := navRows_rank ha2
          exact Or.inl (by omega)
        · have ra := rank_of_dir (dirEntries_ty (mem_sortRows ha2))
          exact Or.inl (by omega)
    · simp
  · simp

/-- Claim C6: if the top-level enumeration of the target directory
raises a permission error, the resulting Listing contains exactly one
synthetic error row — no navigation rows and no entry rows. -/
theorem c6_error_listing (fs : FS) (hist : List FPath) (d : FPath)
    (hex : pathExists fs d = true) (hdir : isDirFS fs d = true)
    (hperm : dirListable fs d = false) :
    loadRows fs hist d = [errorRow] := by
  simp [loadRows, hex, hdir, hperm]

/-- A directory whose own enumeration raises `PermissionError`. -/
def fsPerm : FS := [(["locked"], .dir ["x"] false true)]

theorem c6_error_listing_witness :
    pathExists fsPerm ["locked"] = true ∧ isDirFS fsPerm ["locked"] = true ∧
      dirListable fsPerm ["locked"] = false ∧
      loadRows fsPerm [["h"]] ["locked"] = [errorRow] :=
  ⟨by decide, by decide, by decide,
    c6_error_listing fsPerm [["h"]] ["locked"] (by decide) (by decide) (by decide)⟩

/-! ### Validator claims -/

/-- Claim C4: for every directory D the validator's verdict is true iff
all three required subdirectory names exist as directories directly
under D (independent of any note-file counts, as the fs is universally
quantified and counts do not appear in the characterisation); for a path
that does not exist or is not a directory the result is invalid with a
single diagnostic line. -/
theorem c4_validator_iff (fs : FS) (d : FPath) :
    ((pathExists fs d && isDirFS fs d) = true →
      ((validate_logseq_structure fs d).fst = true ↔
        ∀ i ∈ requiredItems, itemPresent fs d i = true)) ∧
    ((pathExists fs d && isDirFS fs d) = false →
      validate_logseq_structure fs d =
        (false, ["📁 Path doesn\x27t exist or isn\x27t a directory"])) := by
  constructor
  · intro h
    simp [validate_logseq_structure, h, List.all_eq_true]
  · intro h
    simp [validate_logseq_structure, h]

/-- A valid workspace used as witness input for the validator claims. -/
def fsValid : FS :=
  [(["w"], .dir ["logseq", "pages", "journals"] true true),
   (["w", "logseq"], .dir [] true true),
   (["w", "pages"], .dir ["a.md"] true true),
   (["w", "pages", "a.md"], .file 10 true),
   (["w", "journals"], .dir [] true true)]

theorem c4_validator_iff_witness :
    (pathExists fsValid ["w"] && isDirFS fsValid ["w"]) = true ∧
      ((validate_logseq_structure fsValid ["w"]).fst = true ↔
        ∀ i ∈ requiredItems, itemPresent fsValid ["w"] i = true) :=
  ⟨by decide, (c4_validator_iff fsValid ["w"]).1 (by decide)⟩

/-- The size formatter as the spec words it: walk the unit list
`B, KB, MB, GB, TB`, dividing by 1024 until the remaining value is below
1024 or the unit list is exhausted, then print with zero decimal
places. -/
def specUnitsWalk (num den : Nat) (u : String) : List String → String
  | [] => fmtDot0 num den ++ u
  | u2 :: rest =>
    if num < 1024 * den then fmtDot0 num den ++ u
    else specUnitsWalk num (den * 1024) u2 rest

/-- The spec-worded formatter over the full unit list. -/
def formatSizeSpec (n : Nat) : String := specUnitsWalk n 1 "B" ["KB", "MB", "GB", "TB"]

/-- Claim C7 (amended): for every byte count below `2 ^ 53` — the range
in which the int-to-double conversion is exact, which covers all four
quoted examples — the formatter divides the count by 1024 repeatedly
until the remaining value is below 1024 or the unit list
`B, KB, MB, GB, TB` is exhausted and prints the value with zero decimal
places followed by the unit; for larger counts the code divides the
nearest-double approximation of the count instead, so the printed
digits can differ from this exact-value walk. -/
theorem c7_format_size :
    (∀ n, n < 2 ^ 53 → format_size n = formatSizeSpec n) ∧
    format_size 0 = "0B" ∧ format_size 1023 = "1023B" ∧
    format_size 1024 = "1KB" ∧ format_size (1024 * 1024) = "1MB" := by
  refine ⟨?_, by decide, by decide, by decide, by decide⟩
  intro n hn
  have hf : floatOfNat n = n := by
    unfold floatOfNat
    rw [if_pos hn]
  unfold format_size
  rw [hf]
  simp only [formatSizeSpec, formatSizeGo, specUnitsWalk]

theorem c7_format_size_witness :
    1023 < 2 ^ 53 ∧ format_size 1023 = formatSizeSpec 1023 :=
  ⟨by decide, c7_format_size.1 1023 (by decide)⟩

/-- Counterexample to claim C7 as stated: at `n = 2 ^ 55 + 2 ^ 39 + 1`
the conversion to a double rounds `n` down to `2 ^ 55 + 2 ^ 39` (the
nearest multiple of the 8-unit ulp of that binade), after four
divisions the code holds exactly `32768.5`, and ties-to-even printing
gives `"32768TB"` — while dividing the exact count as the claim
describes yields `"32769TB"`. -/
theorem c7_float_counterexample :
    format_size (2 ^ 55 + 2 ^ 39 + 1) = "32768TB" ∧
    formatSizeSpec (2 ^ 55 + 2 ^ 39 + 1) = "32769TB" ∧
    ("32768TB" : String) ≠ "32769TB" :=
  ⟨by decide, by decide, by decide⟩

/-- Claim C10: there is a byte count — 1048575 — on which the formatter
prints `"1024KB"`: `1048575 / 1024` is below 1024 so division stops at
`KB`, but rounding to zero decimal places lifts it to 1024. -/
theorem c10_format_size_1024KB : format_size 1048575 = "1024KB" := by decide

/-! ### Name recovery (`str.replace`) lemmas and the ActivateRow claim -/

theorem replListAux_of_hasSub_false {pat rep : List Char} (fuel : Nat) (l : List Char)
    (hfuel : l.length ≤ fuel) (h : hasSub pat l = false) :
    replListAux pat rep fuel l = l := by
  induction fuel generalizing l with
  | zero =>
    cases l with
    | nil => rfl
    | cons c rest => simp at hfuel
  | succ f ih =>
    cases l with
    | nil => rfl
    | cons c rest =>
      have h2 : pat.isPrefixOf (c :: rest) = false ∧ hasSub pat rest = false := by
        simpa [hasSub] using h
      rw [replListAux, if_neg (by simp [h2.1]),
        ih rest (by simpa using Nat.le_of_succ_le_succ hfuel) h2.2]

theorem replListAux_fuel_irrel {pat rep : List Char} (fuel1 fuel2 : Nat) (l : List Char)
    (h1 : l.length ≤ fuel1) (h2 : l.length ≤ fuel2) :
    replListAux pat rep fuel1 l = replListAux pat rep fuel2 l := by
  induction fuel1 generalizing fuel2 l with
  | zero =>
    cases l with
    | nil => cases fuel2 <;> rfl
    | cons c rest => simp at h1
  | succ f1 ih =>
    cases l with
    | nil => cases fuel2 <;> rfl
    | cons c rest =>
      cases fuel2 with
      | zero => simp at h2
      | succ f2 =>
        rw [replListAux, replListAux]
        split
        · rename_i hp
          have hlen : (rest.drop (pat.length - 1)).length ≤ rest.length := by
            simp [List.length_drop]
          congr 1
          exact ih f2 _ (by simp at h1 ⊢; omega) (by simp at h2 ⊢; omega)
        · congr 1
          exact ih f2 rest (by simpa using Nat.le_of_succ_le_succ h1)
            (by simpa using Nat.le_of_succ_le_succ h2)

theorem replList_of_hasSub_false {pat rep l : List Char}
    (h : hasSub pat l = false) : replList pat rep l = l :=
  replListAux_of_hasSub_false l.length l (Nat.le_refl _) h

theorem replList_pat_append {pat : List Char} (hne : pat ≠ []) (rep l : List Char) :
    replList pat rep (pat ++ l) = rep ++ replList pat rep l := by
  obtain ⟨p, ps, rfl⟩ : ∃ p ps, pat = p :: ps := by
    cases pat with
    | nil => exact absurd rfl hne
    | cons p ps => exact ⟨p, ps, rfl⟩
  unfold replList
  rw [show ((p :: ps) ++ l).length = (ps ++ l).length + 1 by simp,
    List.cons_append, replListAux, if_pos ⟨hne, by simp⟩]
  congr 1
  have hdrop : (ps ++ l).drop ((p :: ps).length - 1) = l := by simp
  rw [hdrop]
  exact replListAux_fuel_irrel _ _ l (by simp) (Nat.le_refl _)

theorem stripFolderMark_of_clean (n : String)
    (h : hasSub folderMark.data n.data = false) :
    stripFolderMark ("📁 " ++ n) = n := by
  unfold stripFolderMark pyReplace
  rw [String.data_append,
    show ("" : String).data = [] from rfl,
    show folderMark.data = "📁 ".data from rfl,
    replList_pat_append (by decide) [] n.data,
    replList_of_hasSub_false (by simpa [folderMark] using h),
    List.nil_append]

theorem data_head_ne {s t : String} {a b : Char} {la lb : List Char}
    (hs : s.data = a :: la) (ht : t.data = b :: lb) (hab : a ≠ b) : s ≠ t := by
  intro h
  rw [h, ht] at hs
  injection hs with h1 _
  exact hab h1.symm

theorem mark_ne_back (n : String) : ("📁 " ++ n) ≠ "🔙 Back" :=
  data_head_ne
    (show ("📁 " ++ n).data = '📁' :: ' ' :: n.data by
      rw [String.data_append, show "📁 ".data = ['📁', ' '] from rfl]
      exact rfl)
    rfl (by decide)

theorem mark_ne_up (n : String) : ("📁 " ++ n) ≠ "⬆️ Up" :=
  data_head_ne
    (show ("📁 " ++ n).data = '📁' :: ' ' :: n.data by
      rw [String.data_append, show "📁 ".data = ['📁', ' '] from rfl]
      exact rfl)
    rfl (by decide)

theorem file_ne_back (n : String) : ("📄 " ++ n) ≠ "🔙 Back" :=
  data_head_ne
    (show ("📄 " ++ n).data = '📄' :: ' ' :: n.data by
      rw [String.data_append, show "📄 ".data = ['📄', ' '] from rfl]
      exact rfl)
    rfl (by decide)

theorem file_ne_up (n : String) : ("📄 " ++ n) ≠ "⬆️ Up" :=
  data_head_ne
    (show ("📄 " ++ n).data = '📄' :: ' ' :: n.data by
      rw [String.data_append, show "📄 ".data = ['📄', ' '] from rfl]
      exact rfl)
    rfl (by decide)

/-- Claim C3 (amended): activating a row dispatches on row identity —
the back row triggers GoBack, the up row triggers GoUp, a Directory row
triggers Navigate into `currentDirectory / n` where `n` is the display
name with every occurrence of the `"📁 "` marker removed (this equals
the row's underlying name exactly when that name does not contain the
marker, and then the current directory does change), and a File row
causes no transition. -/
theorem c3_activate_row_dispatch (fs : FS) (s : AppState) (d : FPath) (r : Row)
    (hcur : s.table.current = some d) :
    (r.name = "🔙 Back" → action_open_selected fs s r = action_go_back fs s) ∧
    (r.name = "⬆️ Up" → action_open_selected fs s r = navigate fs s (parentOf d)) ∧
    (∀ name sz, r = { name := "📁 " ++ name, ty := "DIR", size := sz } →
      hasSub folderMark.data name.data = false →
      action_open_selected fs s r = navigate fs s (d ++ [name]) ∧
      (action_open_selected fs s r).currentDirectory = d ++ [name] ∧
      d ++ [name] ≠ d) ∧
    (∀ name sz, r = { name := "📄 " ++ name, ty := "FILE", size := sz } →
      action_open_selected fs s r = s) := by
  refine ⟨?_, ?_, ?_, ?_⟩
  · intro h
    simp [action_open_selected, hcur, h]
  · intro h
    simp [action_open_selected, hcur, h]
  · intro name sz hr hclean
    subst hr
    have hstep : action_open_selected fs s
        { name := "📁 " ++ name, ty := "DIR", size := sz } =
        navigate fs s (d ++ [name]) := by
      simp only [action_open_selected, hcur]
      rw [if_neg (mark_ne_back name), if_neg (mark_ne_up name), if_true,
        stripFolderMark_of_clean name hclean]
    refine ⟨hstep, by rw [hstep]; rfl, by simp⟩
  · intro name sz hr
    subst hr
    simp only [action_open_selected, hcur]
    rw [if_neg (file_ne_back name), if_neg (file_ne_up name),
      if_neg (by decide : ¬ ("FILE" : String) = "DIR")]

/-- A directory whose name itself contains the `"📁 "` marker. -/
def fsMark : FS := [([], .dir ["📁 x"] true true), (["📁 x"], .dir [] true true)]

/-- The row the listing produces for that directory. -/
def rowMark : Row := { name := "📁 📁 x", ty := "DIR", size := "0 items" }

/-- Counterexample to claim C3 as stated: the listed Directory row for
the entry named `"📁 x"` is activated, yet navigation goes to
`currentDirectory / "x"` instead of `currentDirectory / "📁 x"` — the
name-recovery `replace` removed both marker occurrences. -/
theorem c3_counterexample :
    rowMark ∈ (initApp fsMark []).table.rows ∧
    (initApp fsMark []).table.current = some [] ∧
    (step fsMark (.openRow rowMark) (initApp fsMark [])).currentDirectory = ["x"] ∧
    (["x"] : FPath) ≠ ["📁 x"] :=
  ⟨by decide, by decide, by decide, by decide⟩

/-- An ordinary directory for the dispatch witness. -/
def fsDocs : FS := [(["d"], .dir ["docs"] true true), (["d", "docs"], .dir [] true true)]

theorem c3_activate_row_dispatch_witness :
    (initApp fsDocs ["d"]).table.current = some ["d"] ∧
    action_open_selected fsDocs (initApp fsDocs ["d"])
        { name := "📁 " ++ "docs", ty := "DIR", size := "0 items" } =
      navigate fsDocs (initApp fsDocs ["d"]) (["d"] ++ ["docs"]) :=
  ⟨by decide,
    ((c3_activate_row_dispatch fsDocs (initApp fsDocs ["d"]) ["d"]
        { name := "📁 " ++ "docs", ty := "DIR", size := "0 items" }
        (by decide)).2.2.1 "docs" "0 items" rfl (by decide)).1⟩

/-! ### Selection claims -/

/-- Claim C2 (amended): `Select` succeeds — setting `selectedDirectory`
to the *current* directory — iff the status widget's cached verdict is
set, and on rejection the state is unchanged.  The cache holds the
validator's verdict for the directory of the most recent validation
display: it is refreshed for `currentDirectory` by every
navigation/refresh, but a Directory-row selection overwrites it with the
verdict of a different directory, so the cached verdict consulted by
`Select` is not necessarily the verdict of the directory being
selected. -/
theorem c2_select_uses_cached_status (fs : FS) (s : AppState) :
    (s.statusValid = true →
      action_select_current s = { s with selectedDirectory := some s.currentDirectory }) ∧
    (s.statusValid = false → action_select_current s = s) ∧
    (∀ p, (check_logseq_structure fs s p).statusValid =
      (validate_logseq_structure fs p).fst ∧
      (check_logseq_structure fs s p).currentDirectory = s.currentDirectory) ∧
    ((refresh_all fs s).statusValid =
      (validate_logseq_structure fs s.currentDirectory).fst) := by
  refine ⟨?_, ?_, fun p => ⟨rfl, rfl⟩, rfl⟩
  · intro h
    simp [action_select_current, h]
  · intro h
    simp [action_select_current, h]

/-- A directory `d` that is not a workspace but whose subdirectory
`d/s` is a valid one. -/
def fsPreview : FS :=
  [(["d"], .dir ["s"] true true),
   (["d", "s"], .dir ["logseq", "pages", "journals"] true true),
   (["d", "s", "logseq"], .dir [] true true),
   (["d", "s", "pages"], .dir [] true true),
   (["d", "s", "journals"], .dir [] true true)]

/-- The row the listing of `d` shows for `s`. -/
def rowSub : Row := { name := "📁 s", ty := "DIR", size := "3 items" }

/-- Counterexample to claim C2 as stated: selecting the Directory row
for `d/s` only runs the validator on `d/s` (caching `is_valid = True`)
without navigating; the following `Select` then succeeds and sets
`selectedDirectory` to the current directory `d`, although the
validator's verdict for `d` — at that moment and always — is invalid. -/
theorem c2_counterexample :
    rowSub ∈ (initApp fsPreview ["d"]).table.rows ∧
    (validate_logseq_structure fsPreview ["d"]).fst = false ∧
    (steps fsPreview [.rowSelected rowSub, .selectCurrent]
        (initApp fsPreview ["d"])).currentDirectory = ["d"] ∧
    (steps fsPreview [.rowSelected rowSub, .selectCurrent]
        (initApp fsPreview ["d"])).selectedDirectory = some ["d"] :=
  ⟨by decide, by decide, by decide, by decide⟩

theorem c2_select_uses_cached_status_witness :
    (initApp fsValid ["w"]).statusValid = true ∧
    action_select_current (initApp fsValid ["w"]) =
      { initApp fsValid ["w"] with
        selectedDirectory := some (initApp fsValid ["w"]).currentDirectory } :=
  ⟨by decide, (c2_select_uses_cached_status fsValid (initApp fsValid ["w"])).1 (by decide)⟩

/-! ### History claims -/

/-- Start directory `/home` with subdirectory `/home/p`. -/
def fsHome : FS :=
  [([], .dir ["home"] true true),
   (["home"], .dir ["p"] true true),
   (["home", "p"], .dir [] true true)]

/-- Claim C1 evaluated at its failing input: starting at `C = /home`
with empty history, one forward navigation to `P = /home/p` pushes `C`;
the following GoBack returns the current directory to `C`, but the
reload performed by `refresh_all` runs `load_directory` with history
recording on and pushes `P`, the directory being left — the history is
`[P]`, not empty as the spec requires. -/
theorem c1_goback_history_regrows :
    (initApp fsHome ["home"]).table.history = [] ∧
    (steps fsHome [.submitPath ["home", "p"]]
        (initApp fsHome ["home"])).table.history = [["home"]] ∧
    (steps fsHome [.submitPath ["home", "p"], .goBack]
        (initApp fsHome ["home"])).currentDirectory = ["home"] ∧
    (steps fsHome [.submitPath ["home", "p"], .goBack]
        (initApp fsHome ["home"])).table.history = [["home", "p"]] :=
  ⟨by decide, by decide, by decide, by decide⟩

/-- The invariant that holds forever once a forward navigation has
pushed an entry: the history is nonempty, the table and the reactive
current directory agree, and the top (last) history entry differs from
the current directory. -/
def HistInv (s : AppState) : Prop :=
  s.table.history ≠ [] ∧ s.table.current = some s.currentDirectory ∧
    s.table.history.getLast? ≠ some s.currentDirectory

theorem navigate_history_of_current (fs : FS) {s : AppState} {c : FPath}
    (h : s.table.current = some c) (p : FPath) :
    (navigate fs s p).table.history =
      if c = p then s.table.history else s.table.history ++ [c] := by
  simp only [navigate, refresh_all, check_logseq_structure, load_directory, h]
  by_cases hcp : c = p <;> simp [hcp]

theorem navigate_inv_of_ne {fs : FS} {s : AppState} {p : FPath}
    (ha : s.table.current = some s.currentDirectory)
    (hne : p ≠ s.currentDirectory) : HistInv (navigate fs s p) := by
  have hh := navigate_history_of_current fs ha p
  rw [if_neg (fun hcp => hne hcp.symm)] at hh
  refine ⟨?_, rfl, ?_⟩
  · rw [hh]
    simp
  · rw [hh, List.getLast?_concat]
    intro he
    exact hne (Option.some.inj he).symm

theorem navigate_inv {fs : FS} {s : AppState} (p : FPath)
    (h : HistInv s) : HistInv (navigate fs s p) := by
  obtain ⟨h1, h2, h3⟩ := h
  by_cases hp : p = s.currentDirectory
  · subst hp
    have hh := navigate_history_of_current fs h2 s.currentDirectory
    rw [if_pos rfl] at hh
    exact ⟨by rw [hh]; exact h1, rfl, by rw [hh]; exact h3⟩
  · exact navigate_inv_of_ne h2 hp

theorem go_back_eq {fs : FS} {s : AppState} {t : FPath}
    (hl : s.table.history.getLast? = some t) :
    action_go_back fs s =
      navigate fs
        { s with table := { s.table with history := s.table.history.dropLast } } t := by
  simp [action_go_back, table_go_back, hl]

theorem go_back_spec {fs : FS} {s : AppState} {t : FPath}
    (h2 : s.table.current = some s.currentDirectory)
    (hl : s.table.history.getLast? = some t) (hne : t ≠ s.currentDirectory) :
    (action_go_back fs s).currentDirectory = t ∧
    (action_go_back fs s).table.current = some t ∧
    (action_go_back fs s).table.history =
      s.table.history.dropLast ++ [s.currentDirectory] := by
  rw [go_back_eq hl]
  refine ⟨rfl, rfl, ?_⟩
  have hh := navigate_history_of_current fs
    (s := { s with table := { s.table with history := s.table.history.dropLast } })
    (c := s.currentDirectory) h2 t
  rw [if_neg (fun hcp => hne hcp.symm)] at hh
  exact hh

theorem getLast?_some_of_ne_nil {l : List FPath} (h : l ≠ []) :
    ∃ t, l.getLast? = some t := by
  cases hl : l.getLast? with
  | none => exact absurd (List.getLast?_eq_none_iff.mp hl) h
  | some t => exact ⟨t, rfl⟩

theorem dropLast_concat_getLast? {l : List FPath} {t : FPath}
    (h : l.getLast? = some t) : l.dropLast ++ [t] = l := by
  cases l with
  | nil => simp at h
  | cons a as =>
    have hne : (a :: as) ≠ [] := by simp
    rw [List.getLast?_eq_getLast _ hne] at h
    rw [← Option.some.inj h]
    exact List.dropLast_append_getLast hne

theorem go_back_inv {fs : FS} {s : AppState} (h : HistInv s) :
    HistInv (action_go_back fs s) ∧
    (action_go_back fs s).table.history.length = s.table.history.length := by
  obtain ⟨h1, h2, h3⟩ := h
  obtain ⟨t, ht⟩ := getLast?_some_of_ne_nil h1
  have hne : t ≠ s.currentDirectory := fun he => h3 (he ▸ ht)
  obtain ⟨hc, htc, hh⟩ := go_back_spec h2 ht hne
  constructor
  · refine ⟨?_, ?_, ?_⟩
    · rw [hh]
      simp
    · rw [htc, hc]
    · rw [hh, hc, List.getLast?_concat]
      intro he
      exact hne (Option.some.inj he).symm
  · rw [hh]
    have hpos : 0 < s.table.history.length := List.length_pos.mpr h1
    simp only [List.length_append, List.length_dropLast, List.length_singleton]
    omega

theorem go_back_twice {fs : FS} {s : AppState} (h : HistInv s) :
    (action_go_back fs (action_go_back fs s)).currentDirectory = s.currentDirectory ∧
    (action_go_back fs (action_go_back fs s)).table.history = s.table.history := by
  obtain ⟨h1, h2, h3⟩ := h
  obtain ⟨t, ht⟩ := getLast?_some_of_ne_nil h1
  have hne : t ≠ s.currentDirectory := fun he => h3 (he ▸ ht)
  obtain ⟨hc1, htc1, hh1⟩ := go_back_spec h2 ht hne
  have ht1 : (action_go_back fs s).table.history.getLast? = some s.currentDirectory := by
    rw [hh1, List.getLast?_concat]
  have h2' : (action_go_back fs s).table.current =
      some (action_go_back fs s).currentDirectory := by rw [htc1, hc1]
  have hne1 : s.currentDirectory ≠ (action_go_back fs s).currentDirectory := by
    rw [hc1]
    exact fun he => hne he.symm
  obtain ⟨hc2, _, hh2⟩ := go_back_spec h2' ht1 hne1
  refine ⟨hc2, ?_⟩
  rw [hh2, hh1, List.dropLast_concat, hc1]
  exact dropLast_concat_getLast? ht

theorem refresh_all_inv {fs : FS} {s : AppState} (h : HistInv s) :
    HistInv (refresh_all fs s) :=
  navigate_inv s.currentDirectory h

theorem step_inv {fs : FS} {s : AppState} (e : Ev) (h : HistInv s) :
    HistInv (step fs e s) := by
  have h2 := h.2.1
  cases e with
  | openRow r =>
    show HistInv (action_open_selected fs s r)
    simp only [action_open_selected, h2]
    split
    · exact (go_back_inv h).1
    · split
      · exact navigate_inv _ h
      · split
        · exact navigate_inv _ h
        · exact h
  | rowSelected r =>
    show HistInv (on_file_table_row_selected fs s r)
    simp only [on_file_table_row_selected, h2]
    split
    · exact (go_back_inv h).1
    · split
      · exact navigate_inv _ h
      · split
        · exact h
        · exact h
  | goBack => exact (go_back_inv h).1
  | refresh => exact refresh_all_inv h
  | submitPath p =>
    show HistInv (on_input_submitted fs s p)
    unfold on_input_submitted
    split
    · exact navigate_inv _ h
    · exact h
  | selectCurrent =>
    show HistInv (action_select_current s)
    unfold action_select_current
    split
    · exact h
    · exact h

theorem steps_inv {fs : FS} (es : List Ev) {s : AppState} (h : HistInv s) :
    HistInv (steps fs es s) := by
  induction es generalizing s with
  | nil => exact h
  | cons e es ih => exact ih (step_inv e h)

/-- Claim C9: once a forward navigation has pushed an entry, the
history is never empty again — a navigation to a genuinely different
directory establishes `HistInv` and every event preserves it; each
successful GoBack pops one entry but the subsequent listing reload
pushes the directory being left (which differs from the popped entry),
so the history length after GoBack equals its length before, and two
successive GoBacks return current directory and history to where they
started: repeated GoBack oscillates between two directories instead of
walking further back. -/
theorem c9_goback_oscillates (fs : FS) (s : AppState) :
    (s.table.current = some s.currentDirectory →
      ∀ p, p ≠ s.currentDirectory → HistInv (navigate fs s p)) ∧
    (HistInv s →
      (∀ e, HistInv (step fs e s)) ∧
      (∀ es, HistInv (steps fs es s)) ∧
      (step fs .goBack s).table.history.length = s.table.history.length ∧
      (step fs .goBack (step fs .goBack s)).currentDirectory = s.currentDirectory ∧
      (step fs .goBack (step fs .goBack s)).table.history = s.table.history) := by
  refine ⟨fun ha p hp => navigate_inv_of_ne ha hp, fun h => ⟨fun e => step_inv e h,
    fun es => steps_inv es h, (go_back_inv h).2, ?_, ?_⟩⟩
  · exact (go_back_twice h).1
  · exact (go_back_twice h).2

/-- The state reached from `/home` after one forward navigation. -/
def s9 : AppState := steps fsHome [.submitPath ["home", "p"]] (initApp fsHome ["home"])

theorem c9_goback_oscillates_witness :
    HistInv s9 ∧
    (step fsHome .goBack s9).table.history.length = s9.table.history.length := by
  have hinv : HistInv s9 := ⟨by decide, by decide, by decide⟩
  exact ⟨hinv, ((c9_goback_oscillates fsHome s9).2 hinv).2.2.1⟩
